import Mathlib

/-!
Shallow embedding of `src/main.py` (ykiu/imagesearch).

An image is modelled as a row-major pixel grid: a list of rows, each row a
list of pixels, each pixel a list of channel values (natural numbers, as in
8-bit PIL channels).  Scores are exact rationals (Python floats on these
small integer data behave like exact arithmetic for the properties below).

External collaborators (PIL decoding `Image.open` and the resampling kernel
inside `Image.resize`) are passed in as explicit function parameters
(`decode`, `resample`); everything else is translated from the source.
-/

namespace ImageSearch

/-- Pixel grid: rows × pixels × channel values. -/
abbrev Img : Type := List (List (List Nat))

/-- `ANGLES = [90, 180, 270]` (src/main.py line 14). -/
def ANGLES : List Nat := [90, 180, 270]

/-- Absolute difference of two channel values, as `PIL.ImageChops.difference`
computes per channel. -/
def absDiff (a b : Nat) : Nat := max a b - min a b

/-- Channel-wise absolute difference of two pixels. -/
def pixelDiff (p q : List Nat) : List Nat := List.zipWith absDiff p q

/-- `difference(image1, image2)`: pixel-wise channel-wise absolute difference. -/
def imageDiff (A B : Img) : Img := List.zipWith (List.zipWith pixelDiff) A B

/-- All pixels of an image in raster order. -/
def pixels (A : Img) : List (List Nat) := A.flatten

/-- Number of channels (bands) of an image. -/
def numBands (A : Img) : Nat := ((pixels A).headD []).length

/-- The values of band `b` across all pixels. -/
def bandValues (A : Img) (b : Nat) : List Nat := (pixels A).map (fun p => p.getD b 0)

/-- Arithmetic mean of a list of naturals, as a rational. -/
def natMean (l : List Nat) : ℚ := (l.sum : ℚ) / l.length

/-- Arithmetic mean of a list of rationals (`statistics.mean`). -/
def qMean (l : List ℚ) : ℚ := l.sum / l.length

/-- `ImageStat.Stat(·).mean`: per-band mean of the pixel values. -/
def statMean (A : Img) : List ℚ := (List.range (numBands A)).map (fun b => natMean (bandValues A b))

/-- `meandiff(image1, image2)` (src/main.py lines 17-18): mean over bands of the
per-band mean of the absolute channel differences. -/
def meandiff (A B : Img) : ℚ := qMean (statMean (imageDiff A B))

/-- Height of an image (`image.height`). -/
def imgHeight (A : Img) : Nat := A.length

/-- Width of an image (`image.width`). -/
def imgWidth (A : Img) : Nat := (A.headD []).length

/-- The target dimensions computed by `resize_to_fit` (src/main.py lines 21-24):
`rate = size / max(width, height)`, then `int(width * rate)` and
`int(height * rate)` — `int` truncates toward zero, i.e. floor on
non-negative values. -/
def resize_to_fit_dims (w h size : Nat) : Nat × Nat :=
  let rate : ℚ := (size : ℚ) / ((max w h : Nat) : ℚ)
  ((⌊(w : ℚ) * rate⌋).toNat, (⌊(h : ℚ) * rate⌋).toNat)

/-- `resize_to_fit(image, size)`: resample to the computed target dimensions.
The resampling kernel is PIL's, passed in as `resample`. -/
def resize_to_fit (resample : Img → Nat × Nat → Img) (A : Img) (size : Nat) : Img :=
  resample A (resize_to_fit_dims (imgWidth A) (imgHeight A) size)

/-- Rotation by 90° counter-clockwise with canvas expansion
(`image.rotate(90, expand=True)`). -/
def rot90 (A : Img) : Img := (List.transpose A).reverse

/-- `image.rotate(angle, expand=True)` for the angles used by the program. -/
def rotateBy (angle : Nat) (A : Img) : Img :=
  if angle = 90 then rot90 A
  else if angle = 180 then rot90 (rot90 A)
  else if angle = 270 then rot90 (rot90 (rot90 A))
  else A

/-- `rotate_to_multiple_angles(image)` (src/main.py lines 27-28): the image
itself followed by its rotations at each angle in `ANGLES`. -/
def rotate_to_multiple_angles (A : Img) : List Img :=
  [A] ++ ANGLES.map (fun a => rotateBy a A)

/-- Left-to-right traversal with abort-on-failure: models a Python list
comprehension in which each element may raise (the first failure aborts the
whole comprehension and no partial list is produced). -/
def traverseOpt (f : α → Option β) : List α → Option (List β)
  | [] => some []
  | a :: as =>
    match f a, traverseOpt f as with
    | some b, some bs => some (b :: bs)
    | _, _ => none

/-- `ImageGroup`: the `self.images` list of `(path, image)` pairs. -/
structure ImageGroup where
  images : List (String × Img)
deriving DecidableEq

/-- The `resized_images` list built in `ImageGroup.__init__` (src/main.py
line 40): decode each path and aspect-fit it to `size`; a decoding failure
(PIL raising on `Image.open`) aborts the whole construction. -/
def loadResized (decode : String → Option Img) (resample : Img → Nat × Nat → Img)
    (size : Nat) (paths : List String) : Option (List (String × Img)) :=
  traverseOpt (fun p => (decode p).map (fun i => (p, resize_to_fit resample i size))) paths

/-- `ImageGroup.__init__` (src/main.py lines 32-49): load and resize every
path; when `rotate` is set, replace each entry by the four rotation variants,
all sharing the entry's path. `none` models the constructor raising. -/
def mkImageGroup (decode : String → Option Img) (resample : Img → Nat × Nat → Img)
    (paths : List String) (size : Nat) (rotate : Bool) : Option ImageGroup :=
  (loadResized decode resample size paths).map (fun resized =>
    if rotate then
      ⟨resized.flatMap (fun q => (rotate_to_multiple_angles q.2).map (fun r => (q.1, r)))⟩
    else ⟨resized⟩)

/-- `ImageGroup.meandiff` (src/main.py lines 57-58): score `image` against
every entry of the group, keeping paths. -/
def ImageGroup.meandiffAll (g : ImageGroup) (image : Img) : List (String × ℚ) :=
  g.images.map (fun q => (q.1, meandiff image q.2))

/-- `ImageGroup.filter_similar` (src/main.py lines 60-61): the paths whose
score is strictly below `threshold`, in group order. -/
def ImageGroup.filter_similar (g : ImageGroup) (image : Img) (threshold : ℚ) : List String :=
  ((g.meandiffAll image).filter (fun q => q.2 < threshold)).map Prod.fst

/-- Insert into a Python dict modelled as an ordered association list: an
existing key keeps its position and gets the new value, a new key is appended. -/
def dictInsert {V : Type} : List (String × V) → String → V → List (String × V)
  | [], k, v => [(k, v)]
  | q :: rest, k, v => if q.1 = k then (k, v) :: rest else q :: dictInsert rest k v

/-- A Python dict comprehension over an association list of (key, value)
pairs, later pairs overwriting earlier ones. -/
def dictOfList {V : Type} (l : List (String × V)) : List (String × V) :=
  l.foldl (fun d q => dictInsert d q.1 q.2) []

/-- Python `d[k]` as an option: the value at the first (only) occurrence of `k`. -/
def dictFind {V : Type} : List (String × V) → String → Option V
  | [], _ => none
  | q :: rest, k => if q.1 = k then some q.2 else dictFind rest k

/-- Number of entries of a dict carrying key `k`. -/
def keyCount {V : Type} (d : List (String × V)) (k : String) : Nat :=
  (d.filter (fun q => q.1 = k)).length

/-- `ImageGroup.lookup` (src/main.py lines 63-70): the dict comprehension
`{path: other.filter_similar(image, threshold) for path, image in self}`. -/
def ImageGroup.lookup (g other : ImageGroup) (threshold : ℚ) : List (String × List String) :=
  dictOfList (g.images.map (fun q => (q.1, other.filter_similar q.2 threshold)))

/-- Modelled from the spec (§4.1): the aspect-fit dimensions the spec claims,
with `round` in place of the source's `int` truncation. -/
def resize_round_dims (w h size : Nat) : Nat × Nat :=
  let rate : ℚ := (size : ℚ) / ((max w h : Nat) : ℚ)
  (round ((w : ℚ) * rate) |>.toNat, round ((h : ℚ) * rate) |>.toNat)

theorem zipWith_self (f : α → α → β) (l : List α) :
    List.zipWith f l l = l.map (fun a => f a a) := by
  induction l with
  | nil => rfl
  | cons a as ih => simp [ih]

@[simp] theorem absDiff_self (a : Nat) : absDiff a a = 0 := by
  simp [absDiff]

theorem pixelDiff_self (p : List Nat) : pixelDiff p p = List.replicate p.length 0 := by
  simp [pixelDiff, zipWith_self]

theorem replicate_getD_zero : (n b : Nat) → (List.replicate n (0 : Nat)).getD b 0 = 0
  | 0, _ => by simp
  | _ + 1, 0 => rfl
  | n + 1, b + 1 => by simp [replicate_getD_zero n b]

theorem pixels_imageDiff_self (A : Img) :
    pixels (imageDiff A A) = (pixels A).map (fun p => List.replicate p.length 0) := by
  simp [pixels, imageDiff, zipWith_self, pixelDiff_self, List.map_flatten]

theorem natMean_bandValues_diff_self (A : Img) (b : Nat) :
    natMean (bandValues (imageDiff A A) b) = 0 := by
  have h : (bandValues (imageDiff A A) b).sum = 0 := by
    apply List.sum_eq_zero
    intro x hx
    simp only [bandValues, pixels_imageDiff_self, List.map_map, List.mem_map,
      Function.comp] at hx
    rcases hx with ⟨p, _, rfl⟩
    exact replicate_getD_zero p.length b
  simp [natMean, h]

theorem meandiff_self (A : Img) : meandiff A A = 0 := by
  have h : (statMean (imageDiff A A)).sum = 0 := by
    apply List.sum_eq_zero
    intro x hx
    rcases List.mem_map.mp hx with ⟨b, _, rfl⟩
    exact natMean_bandValues_diff_self A b
  simp [meandiff, qMean, h]

theorem traverseOpt_eq_none_iff (f : α → Option β) (l : List α) :
    traverseOpt f l = none ↔ ∃ a ∈ l, f a = none := by
  induction l with
  | nil => simp [traverseOpt]
  | cons a as ih =>
    simp only [traverseOpt, List.mem_cons]
    cases hfa : f a with
    | none =>
      exact iff_of_true rfl ⟨a, Or.inl rfl, hfa⟩
    | some b =>
      cases has : traverseOpt f as with
      | none =>
        rw [has] at ih
        obtain ⟨x, hx, hfx⟩ := ih.mp rfl
        exact iff_of_true rfl ⟨x, Or.inr hx, hfx⟩
      | some bs =>
        rw [has] at ih
        constructor
        · intro h; cases h
        · rintro ⟨x, hx, hfx⟩
          rcases hx with rfl | hx'
          · rw [hfa] at hfx; cases hfx
          · have hc := ih.mpr ⟨x, hx', hfx⟩; cases hc

theorem traverseOpt_isSome (f : α → Option β) (l : List α)
    (h : ∀ a ∈ l, (f a).isSome) : (traverseOpt f l).isSome := by
  induction l with
  | nil => simp [traverseOpt]
  | cons a as ih =>
    have ha := h a (List.mem_cons_self a as)
    have has := ih (fun x hx => h x (List.mem_cons_of_mem a hx))
    cases hfa : f a with
    | none => rw [hfa] at ha; cases ha
    | some b =>
      cases hs : traverseOpt f as with
      | none => rw [hs] at has; cases has
      | some bs => simp [traverseOpt, hfa, hs]

theorem traverseOpt_length (f : α → Option β) (l : List α) (r : List β)
    (h : traverseOpt f l = some r) : r.length = l.length := by
  induction l generalizing r with
  | nil => cases h; rfl
  | cons a as ih =>
    simp only [traverseOpt] at h
    cases hfa : f a with
    | none => rw [hfa] at h; cases h
    | some b =>
      cases hs : traverseOpt f as with
      | none => rw [hfa, hs] at h; cases h
      | some bs =>
        rw [hfa, hs] at h
        cases h
        simp [ih bs hs]

theorem filter_similar_eq (g : ImageGroup) (image : Img) (t : ℚ) :
    g.filter_similar image t
      = (g.images.filter (fun q => meandiff image q.2 < t)).map Prod.fst := by
  unfold ImageGroup.filter_similar ImageGroup.meandiffAll
  rw [List.filter_map, List.map_map]
  rfl

theorem mem_filter_similar (g : ImageGroup) (image : Img) (t : ℚ) (cid : String) :
    cid ∈ g.filter_similar image t
      ↔ ∃ im, (cid, im) ∈ g.images ∧ meandiff image im < t := by
  rw [filter_similar_eq]
  simp only [List.mem_map, List.mem_filter, decide_eq_true_eq]
  constructor
  · rintro ⟨⟨p, im⟩, ⟨hmem, hlt⟩, rfl⟩
    exact ⟨im, hmem, hlt⟩
  · rintro ⟨im, hmem, hlt⟩
    exact ⟨(cid, im), ⟨hmem, hlt⟩, rfl⟩

theorem count_filter_similar (g : ImageGroup) (image : Img) (t : ℚ) (cid : String) :
    (g.filter_similar image t).count cid
      = (g.images.filter (fun q => q.1 = cid ∧ meandiff image q.2 < t)).length := by
  rw [filter_similar_eq]
  rw [List.count, List.countP_map, List.countP_filter,
    ← List.countP_eq_length_filter]
  apply List.countP_congr
  intro q _
  simp only [Function.comp_apply, Bool.and_eq_true, beq_iff_eq, decide_eq_true_eq]


theorem nodup_fst_eq_of_mem (l : List (String × Img)) (hnd : (l.map Prod.fst).Nodup)
    (k : String) (a b : Img) (ha : (k, a) ∈ l) (hb : (k, b) ∈ l) : a = b := by
  induction l with
  | nil => cases ha
  | cons q rest ih =>
    simp only [List.map_cons, List.nodup_cons] at hnd
    rcases List.mem_cons.mp ha with ha' | ha' <;> rcases List.mem_cons.mp hb with hb' | hb'
    · injection ha'.trans hb'.symm with h1 h2
    · exfalso
      have hk : k ∈ List.map Prod.fst rest := List.mem_map.mpr ⟨(k, b), hb', rfl⟩
      have hq : q.1 = k := by rw [← ha']
      exact hnd.1 (by rw [hq]; exact hk)
    · exfalso
      have hk : k ∈ List.map Prod.fst rest := List.mem_map.mpr ⟨(k, a), ha', rfl⟩
      have hq : q.1 = k := by rw [← hb']
      exact hnd.1 (by rw [hq]; exact hk)
    · exact ih hnd.2 ha' hb'

/-- First-some choice on options, used to state dict lookup over appended lists. -/
def optOr {V : Type} (a b : Option V) : Option V :=
  match a with
  | some v => some v
  | none => b

theorem optOr_none_right {V : Type} (a : Option V) : optOr a none = a := by
  cases a <;> rfl

theorem keyCount_cons {V : Type} (x : String × V) (xs : List (String × V)) (k : String) :
    keyCount (x :: xs) k = (if x.1 = k then 1 else 0) + keyCount xs k := by
  by_cases h : x.1 = k
  · simp [keyCount, List.filter_cons, h]
    omega
  · simp [keyCount, List.filter_cons, h]

theorem dictFind_dictInsert {V : Type} (d : List (String × V)) (a k : String) (v : V) :
    dictFind (dictInsert d a v) k = if a = k then some v else dictFind d k := by
  induction d with
  | nil => simp [dictInsert, dictFind]
  | cons q rest ih =>
    simp only [dictInsert]
    by_cases hqa : q.1 = a
    · simp only [if_pos hqa, dictFind]
      by_cases hak : a = k
      · simp [hak]
      · have hqk : ¬ q.1 = k := by rw [hqa]; exact hak
        simp [hak, hqk]
    · simp only [if_neg hqa, dictFind, ih]
      by_cases hqk : q.1 = k
      · have hak : ¬ a = k := fun h => hqa (by rw [hqk, h])
        simp [hqk, hak]
      · simp [hqk]

theorem keyCount_dictInsert {V : Type} (d : List (String × V)) (a k : String) (v : V) :
    keyCount (dictInsert d a v) k
      = if a = k then max 1 (keyCount d k) else keyCount d k := by
  induction d with
  | nil => by_cases hak : a = k <;> simp [dictInsert, keyCount, List.filter_cons, hak]
  | cons q rest ih =>
    simp only [dictInsert]
    by_cases hqa : q.1 = a
    · rw [if_pos hqa, keyCount_cons, keyCount_cons]
      by_cases hak : a = k
      · have hqk : q.1 = k := by rw [hqa, hak]
        simp only [if_pos hak, if_pos hqk]
        omega
      · have hqk : ¬ q.1 = k := by rw [hqa]; exact hak
        simp [hak, hqk]
    · rw [if_neg hqa, keyCount_cons, keyCount_cons, ih]
      by_cases hak : a = k
      · have hqk : ¬ q.1 = k := by rw [← hak] at *; exact hqa
        simp only [if_pos hak, if_neg hqk]
        omega
      · simp [hak]

theorem keyCount_foldl {V : Type} (l : List (String × V)) (d : List (String × V)) (k : String) :
    keyCount (l.foldl (fun d q => dictInsert d q.1 q.2) d) k
      = if k ∈ l.map Prod.fst then max 1 (keyCount d k) else keyCount d k := by
  induction l generalizing d with
  | nil => simp
  | cons q rest ih =>
    simp only [List.foldl_cons, List.map_cons, List.mem_cons]
    rw [ih, keyCount_dictInsert]
    by_cases hqk : q.1 = k <;> by_cases hm : k ∈ rest.map Prod.fst
    · rw [if_pos hm, if_pos hqk, if_pos (Or.inr hm), ← Nat.max_assoc, Nat.max_self]
    · rw [if_neg hm, if_pos hqk, if_pos (Or.inl hqk.symm)]
    · rw [if_pos hm, if_neg hqk, if_pos (Or.inr hm)]
    · rw [if_neg hm, if_neg hqk,
        if_neg (fun hor => hor.elim (fun h => hqk h.symm) hm)]

theorem keyCount_dictOfList {V : Type} (l : List (String × V)) (k : String) :
    keyCount (dictOfList l) k = if k ∈ l.map Prod.fst then 1 else 0 := by
  rw [dictOfList, keyCount_foldl]
  by_cases hm : k ∈ l.map Prod.fst <;> simp [hm, keyCount]

theorem dictFind_append {V : Type} (xs ys : List (String × V)) (k : String) :
    dictFind (xs ++ ys) k = optOr (dictFind xs k) (dictFind ys k) := by
  induction xs with
  | nil => rfl
  | cons x xs ih => by_cases h : x.1 = k <;> simp [dictFind, h, ih, optOr]

theorem dictFind_foldl {V : Type} (l d : List (String × V)) (k : String) :
    dictFind (l.foldl (fun d q => dictInsert d q.1 q.2) d) k
      = optOr (dictFind l.reverse k) (dictFind d k) := by
  induction l generalizing d with
  | nil => rfl
  | cons q rest ih =>
    simp only [List.foldl_cons, List.reverse_cons]
    rw [ih, dictFind_dictInsert, dictFind_append]
    cases hv : dictFind rest.reverse k <;> by_cases hqk : q.1 = k <;>
      simp [optOr, dictFind, hqk]

theorem dictFind_dictOfList {V : Type} (l : List (String × V)) (k : String) :
    dictFind (dictOfList l) k = dictFind l.reverse k := by
  rw [dictOfList, dictFind_foldl]
  exact optOr_none_right _

theorem dictFind_mem {V : Type} (d : List (String × V)) (k : String) (v : V)
    (h : dictFind d k = some v) : (k, v) ∈ d := by
  induction d with
  | nil => cases h
  | cons q rest ih =>
    rw [dictFind] at h
    by_cases hqk : q.1 = k
    · rw [if_pos hqk] at h
      have hv : q.2 = v := Option.some.inj h
      exact List.mem_cons.mpr (Or.inl (by rw [← hqk, ← hv]))
    · rw [if_neg hqk] at h
      exact List.mem_cons.mpr (Or.inr (ih h))

theorem dictFind_isSome_iff {V : Type} (d : List (String × V)) (k : String) :
    (dictFind d k).isSome ↔ k ∈ d.map Prod.fst := by
  induction d with
  | nil => simp [dictFind]
  | cons q rest ih =>
    by_cases h : q.1 = k
    · simp [dictFind, h]
    · simp only [dictFind, if_neg h, List.map_cons, List.mem_cons]
      rw [ih]
      constructor
      · exact Or.inr
      · rintro (h' | h')
        · exact absurd h'.symm h
        · exact h'

theorem dictFind_map_val {A V : Type} (l : List (String × A)) (F : A → V) (k : String) :
    dictFind (l.map (fun q => (q.1, F q.2))) k = (dictFind l k).map F := by
  induction l with
  | nil => rfl
  | cons q rest ih => by_cases h : q.1 = k <;> simp [dictFind, h, ih]

theorem rotated_entries_length (resized : List (String × Img)) :
    (resized.flatMap (fun q =>
        (rotate_to_multiple_angles q.2).map (fun r => (q.1, r)))).length
      = 4 * resized.length := by
  induction resized with
  | nil => rfl
  | cons q rest ih =>
    have h4 : ((rotate_to_multiple_angles q.2).map (fun r => (q.1, r))).length = 4 := rfl
    rw [List.flatMap_cons, List.length_append, ih, h4, List.length_cons]
    omega

theorem resize_dims_le (w h size : Nat) (hw : 0 < w) (_hh : 0 < h) :
    (resize_to_fit_dims w h size).1 ≤ size ∧ (resize_to_fit_dims w h size).2 ≤ size := by
  have hm0 : 0 < max w h := lt_of_lt_of_le hw (le_max_left w h)
  have hm : (0 : ℚ) < ((max w h : Nat) : ℚ) := by exact_mod_cast hm0
  have hrate : (0 : ℚ) ≤ (size : ℚ) / ((max w h : Nat) : ℚ) :=
    div_nonneg (by positivity) (le_of_lt hm)
  have key : ∀ d : Nat, d ≤ max w h →
      (⌊(d : ℚ) * ((size : ℚ) / ((max w h : Nat) : ℚ))⌋).toNat ≤ size := by
    intro d hd
    apply Int.toNat_le.mpr
    have hdm : (d : ℚ) ≤ ((max w h : Nat) : ℚ) := by exact_mod_cast hd
    have hle : (d : ℚ) * ((size : ℚ) / ((max w h : Nat) : ℚ)) ≤ (size : ℚ) := by
      calc (d : ℚ) * ((size : ℚ) / ((max w h : Nat) : ℚ))
          ≤ ((max w h : Nat) : ℚ) * ((size : ℚ) / ((max w h : Nat) : ℚ)) :=
            mul_le_mul_of_nonneg_right hdm hrate
        _ = (size : ℚ) := by
            rw [mul_comm]
            exact div_mul_cancel₀ _ (ne_of_gt hm)
    calc ⌊(d : ℚ) * ((size : ℚ) / ((max w h : Nat) : ℚ))⌋
        ≤ ⌊(size : ℚ)⌋ := Int.floor_le_floor hle
      _ = (size : ℤ) := Int.floor_natCast size
  exact ⟨key w (le_max_left w h), key h (le_max_right w h)⟩

example : meandiff [[[10]]] [[[0]]] = 10 := by
  simp [meandiff, qMean, statMean, numBands, bandValues, pixels, imageDiff, pixelDiff,
    absDiff, natMean, List.range_succ]
example : resize_to_fit_dims 3 2 100 = (100, 66) := by
  simp only [resize_to_fit_dims]
  norm_num [Int.floor_eq_iff]
  decide
example : resize_round_dims 3 2 100 = (100, 67) := by
  simp only [resize_round_dims]
  norm_num [round_eq, Int.floor_eq_iff]
  decide
example : resize_to_fit_dims 1 200 100 = (0, 100) := by
  simp only [resize_to_fit_dims]
  norm_num [Int.floor_eq_iff]
  decide

/-- C1: in `filter_similar` (hence in each `lookup` match list) a candidate
identifier is included if and only if its score is strictly below the
threshold: a pair scoring exactly the threshold is excluded, a pair scoring
below it is included. -/
theorem claim_strict_threshold (g : ImageGroup) (image : Img) (t : ℚ) (cid : String)
    (im : Img) (hmem : (cid, im) ∈ g.images) (hnd : (g.images.map Prod.fst).Nodup) :
    cid ∈ g.filter_similar image t ↔ meandiff image im < t := by
  rw [mem_filter_similar]
  constructor
  · rintro ⟨im2, hmem2, hlt⟩
    rw [nodup_fst_eq_of_mem g.images hnd cid im im2 hmem hmem2]
    exact hlt
  · intro hlt
    exact ⟨im, hmem, hlt⟩

/-- C1 witness: a one-candidate group at score 0 and threshold 1. -/
theorem claim_strict_threshold_witness :
    "b" ∈ (ImageGroup.mk [("b", [[[0]]])]).filter_similar [[[0]]] 1
      ↔ meandiff [[[0]]] [[[0]]] < 1 :=
  claim_strict_threshold (ImageGroup.mk [("b", [[[0]]])]) [[[0]]] 1 "b" [[[0]]]
    (by simp) (by simp)

/-- C5: the match list of `filter_similar` is exactly the identifiers of the
below-threshold candidate entries in the candidate group's iteration order; in
particular it is a sublist of the candidate identifier sequence. -/
theorem claim_match_order (g : ImageGroup) (image : Img) (t : ℚ) :
    g.filter_similar image t
        = (g.images.filter (fun q => meandiff image q.2 < t)).map Prod.fst
      ∧ (g.filter_similar image t).Sublist (g.images.map Prod.fst) := by
  refine ⟨filter_similar_eq g image t, ?_⟩
  rw [filter_similar_eq]
  exact (List.filter_sublist _).map Prod.fst

/-- C4: every identifier occurring in the reference group appears as a key of
the mapping returned by `lookup` (also when its match list is empty). -/
theorem claim_lookup_total (g other : ImageGroup) (t : ℚ) (id : String) (im : Img)
    (hmem : (id, im) ∈ g.images) : ∃ l, (id, l) ∈ g.lookup other t := by
  have hkey : id ∈ (g.images.map (fun q => (q.1, other.filter_similar q.2 t))).map Prod.fst := by
    rw [List.map_map]
    exact List.mem_map.mpr ⟨(id, im), hmem, rfl⟩
  have h3 : (dictFind (g.lookup other t) id).isSome := by
    rw [ImageGroup.lookup, dictFind_dictOfList, dictFind_isSome_iff, List.map_reverse,
      List.mem_reverse]
    exact hkey
  obtain ⟨l, hl⟩ := Option.isSome_iff_exists.mp h3
  exact ⟨l, dictFind_mem _ _ _ hl⟩

/-- C4 witness: a reference whose match list is empty still gets a key. -/
theorem claim_lookup_total_witness :
    ∃ l, ("a", l) ∈ (ImageGroup.mk [("a", [[[0]]])]).lookup (ImageGroup.mk []) 0 :=
  claim_lookup_total (ImageGroup.mk [("a", [[[0]]])]) (ImageGroup.mk []) 0 "a" [[[0]]]
    (by simp)

/-- C7: the difference score of any image with itself is 0. -/
theorem claim_meandiff_identity (A : Img) : meandiff A A = 0 :=
  meandiff_self A

/-- C10: a raw image of positive width 1 and positive height 200 with positive
target size 100 yields a requested resize target whose width truncates to 0. -/
theorem claim_resize_zero_dimension : resize_to_fit_dims 1 200 100 = (0, 100) := by
  simp only [resize_to_fit_dims]
  norm_num [Int.floor_eq_iff]
  decide

/-- C3 counterexample: at raw dimensions 3×2 and target size 100 the source's
truncating dimensions (100, 66) differ from the spec's rounded (100, 67). -/
theorem claim_resize_round_cex :
    resize_to_fit_dims 3 2 100 ≠ resize_round_dims 3 2 100 := by
  have h1 : resize_to_fit_dims 3 2 100 = (100, 66) := by
    simp only [resize_to_fit_dims]
    norm_num [Int.floor_eq_iff]
    decide
  have h2 : resize_round_dims 3 2 100 = (100, 67) := by
    simp only [resize_round_dims]
    norm_num [round_eq, Int.floor_eq_iff]
    decide
  rw [h1, h2]
  decide

/-- C3 amended: the normalized dimensions are the truncation (floor) of
rawDim·scale — not the rounding — and the longer side is still bounded by the
target size. -/
theorem claim_resize_fit_floor_bounded (w h size : Nat) (hw : 0 < w) (hh : 0 < h)
    (_hs : 0 < size) :
    resize_to_fit_dims w h size
        = ((⌊(w : ℚ) * ((size : ℚ) / ((max w h : Nat) : ℚ))⌋).toNat,
            (⌊(h : ℚ) * ((size : ℚ) / ((max w h : Nat) : ℚ))⌋).toNat)
      ∧ (resize_to_fit_dims w h size).1 ≤ size
      ∧ (resize_to_fit_dims w h size).2 ≤ size :=
  ⟨rfl, resize_dims_le w h size hw hh⟩

/-- C3 witness: the amended statement at raw dimensions 3×2, target 100. -/
theorem claim_resize_fit_floor_bounded_witness :
    resize_to_fit_dims 3 2 100
        = ((⌊(3 : ℚ) * ((100 : ℚ) / ((max 3 2 : Nat) : ℚ))⌋).toNat,
            (⌊(2 : ℚ) * ((100 : ℚ) / ((max 3 2 : Nat) : ℚ))⌋).toNat)
      ∧ (resize_to_fit_dims 3 2 100).1 ≤ 100
      ∧ (resize_to_fit_dims 3 2 100).2 ≤ 100 :=
  claim_resize_fit_floor_bounded 3 2 100 (by decide) (by decide) (by decide)

/-- C6: with rotation enabled, a successfully constructed group has exactly 4N
entries for N source paths: for each loaded source, the image itself plus its
rotations at 90°, 180° and 270°, all sharing the source's identifier. -/
theorem claim_rotation_four_variants (decode : String → Option Img)
    (resample : Img → Nat × Nat → Img) (paths : List String) (size : Nat)
    (g : ImageGroup) (hg : mkImageGroup decode resample paths size true = some g) :
    g.images.length = 4 * paths.length
      ∧ ∃ resized : List (String × Img),
          loadResized decode resample size paths = some resized
            ∧ g.images = resized.flatMap (fun q =>
                [(q.1, q.2), (q.1, rotateBy 90 q.2), (q.1, rotateBy 180 q.2),
                  (q.1, rotateBy 270 q.2)]) := by
  rw [mkImageGroup] at hg
  cases hres : loadResized decode resample size paths with
  | none => rw [hres] at hg; cases hg
  | some resized =>
    rw [hres] at hg
    have hg' : (⟨resized.flatMap (fun q => (rotate_to_multiple_angles q.2).map
        (fun r => (q.1, r)))⟩ : ImageGroup) = g := Option.some.inj hg
    refine ⟨?_, resized, rfl, ?_⟩
    · rw [← hg']
      show (resized.flatMap _).length = 4 * paths.length
      rw [rotated_entries_length, traverseOpt_length _ _ _ hres]
    · rw [← hg']
      rfl

/-- C6 witness: one source path yields four entries sharing its identifier. -/
theorem claim_rotation_four_variants_witness :
    (ImageGroup.mk [("p", [[[0]]]), ("p", [[[0]]]), ("p", [[[0]]]),
        ("p", [[[0]]])]).images.length = 4 * (["p"] : List String).length
      ∧ ∃ resized : List (String × Img),
          loadResized (fun _ => some [[[0]]]) (fun i _ => i) 10 ["p"] = some resized
            ∧ (ImageGroup.mk [("p", [[[0]]]), ("p", [[[0]]]), ("p", [[[0]]]),
                ("p", [[[0]]])]).images = resized.flatMap (fun q =>
                [(q.1, q.2), (q.1, rotateBy 90 q.2), (q.1, rotateBy 180 q.2),
                  (q.1, rotateBy 270 q.2)]) :=
  claim_rotation_four_variants (fun _ => some [[[0]]]) (fun i _ => i) ["p"] 10
    (ImageGroup.mk [("p", [[[0]]]), ("p", [[[0]]]), ("p", [[[0]]]), ("p", [[[0]]])])
    rfl

/-- C8: construction of a group aborts (raises, modelled as `none`) as soon as
any source path fails to decode — no partial group is produced — and succeeds
whenever every source path decodes. -/
theorem claim_decode_abort (decode : String → Option Img)
    (resample : Img → Nat × Nat → Img) (paths : List String) (size : Nat)
    (rotate : Bool) :
    ((∃ p ∈ paths, decode p = none) →
        mkImageGroup decode resample paths size rotate = none)
      ∧ ((∀ p ∈ paths, (decode p).isSome) →
          (mkImageGroup decode resample paths size rotate).isSome) := by
  constructor
  · rintro ⟨p, hp, hdp⟩
    rw [mkImageGroup]
    have hnone : loadResized decode resample size paths = none := by
      rw [loadResized]
      exact (traverseOpt_eq_none_iff _ _).mpr ⟨p, hp, by rw [hdp]; rfl⟩
    rw [hnone]
    rfl
  · intro hall
    rw [mkImageGroup]
    have h1 : (loadResized decode resample size paths).isSome := by
      rw [loadResized]
      apply traverseOpt_isSome
      intro p hp
      have hps := hall p hp
      cases hd : decode p with
      | none => rw [hd] at hps; cases hps
      | some i => simp [hd]
    obtain ⟨r, hr⟩ := Option.isSome_iff_exists.mp h1
    rw [hr]
    rfl

/-- C8 witness: one unreadable path aborts; all-readable paths succeed. -/
theorem claim_decode_abort_witness :
    mkImageGroup (fun p => if p = "good.png" then some [[[0]]] else none)
        (fun i _ => i) ["good.png", "bad.png"] 10 false = none
      ∧ (mkImageGroup (fun _ => some [[[0]]]) (fun i _ => i) ["good.png"] 10
          false).isSome := by
  constructor
  · exact (claim_decode_abort _ _ _ _ _).1 ⟨"bad.png", by simp, by simp⟩
  · exact (claim_decode_abort _ _ _ _ _).2 (fun p _ => rfl)

/-- C9: when the reference group repeats an identifier, the `lookup` mapping
holds that identifier as a key exactly once, and its match list is the one
computed from the last occurrence's image (later dict writes overwrite
earlier ones). -/
theorem claim_duplicate_reference_last_wins (g other : ImageGroup) (t : ℚ)
    (id : String) (im : Img) (hlast : dictFind g.images.reverse id = some im) :
    keyCount (g.lookup other t) id = 1
      ∧ dictFind (g.lookup other t) id = some (other.filter_similar im t) := by
  have hmem : (id, im) ∈ g.images := List.mem_reverse.mp (dictFind_mem _ _ _ hlast)
  have hkey : id ∈ (g.images.map (fun q => (q.1, other.filter_similar q.2 t))).map Prod.fst := by
    rw [List.map_map]
    exact List.mem_map.mpr ⟨(id, im), hmem, rfl⟩
  constructor
  · rw [ImageGroup.lookup, keyCount_dictOfList, if_pos hkey]
  · rw [ImageGroup.lookup, dictFind_dictOfList, ← List.map_reverse]
    have h2 := dictFind_map_val g.images.reverse (fun x => other.filter_similar x t) id
    rw [hlast] at h2
    exact h2

/-- C9 witness: a duplicated reference identifier keyed once, valued from the
last occurrence (whose score 10 is not below threshold 5, unlike the first). -/
theorem claim_duplicate_reference_last_wins_witness :
    keyCount ((ImageGroup.mk [("a", [[[0]]]), ("a", [[[10]]])]).lookup
        (ImageGroup.mk [("b", [[[0]]])]) 5) "a" = 1
      ∧ dictFind ((ImageGroup.mk [("a", [[[0]]]), ("a", [[[10]]])]).lookup
          (ImageGroup.mk [("b", [[[0]]])]) 5) "a"
        = some ((ImageGroup.mk [("b", [[[0]]])]).filter_similar [[[10]]] 5) :=
  claim_duplicate_reference_last_wins
    (ImageGroup.mk [("a", [[[0]]]), ("a", [[[10]]])])
    (ImageGroup.mk [("b", [[[0]]])]) 5 "a" [[[10]]] (by simp [dictFind])

/-- C2 counterexample: a rotation-symmetric 1×1 candidate whose four Variants
all score 0 is listed four times — not at most once — in the match list. -/
theorem claim_rotation_duplicates_cex :
    (mkImageGroup (fun p => if p = "c.png" then some [[[0]]] else none)
        (fun i _ => i) ["c.png"] 100 true).map
      (fun g => (g.filter_similar [[[0]]] 1).count "c.png") = some 4 := by
  have hg : mkImageGroup (fun p => if p = "c.png" then some [[[0]]] else none)
      (fun i _ => i) ["c.png"] 100 true
      = some (ImageGroup.mk [("c.png", [[[0]]]), ("c.png", [[[0]]]),
          ("c.png", [[[0]]]), ("c.png", [[[0]]])]) := rfl
  rw [hg]
  have hmd : meandiff [[[0]]] [[[0]]] = 0 := meandiff_self [[[0]]]
  simp [ImageGroup.filter_similar, ImageGroup.meandiffAll, hmd, List.filter_cons,
    List.count_cons]

/-- C2 amended: with rotation enabled, a candidate identifier appears in the
match list once for each of its Variants scoring below threshold (so it can be
listed several times), and it appears at all exactly when some entry with that
identifier scores below threshold. -/
theorem claim_rotation_match_counts (decode : String → Option Img)
    (resample : Img → Nat × Nat → Img) (paths : List String) (size : Nat)
    (t : ℚ) (g : ImageGroup) (image : Img) (cid : String)
    (_hg : mkImageGroup decode resample paths size true = some g) :
    (cid ∈ g.filter_similar image t
        ↔ ∃ im, (cid, im) ∈ g.images ∧ meandiff image im < t)
      ∧ (g.filter_similar image t).count cid
          = (g.images.filter (fun q => q.1 = cid ∧ meandiff image q.2 < t)).length :=
  ⟨mem_filter_similar g image t cid, count_filter_similar g image t cid⟩

/-- C2 witness: the amended statement at the rotation-symmetric candidate. -/
theorem claim_rotation_match_counts_witness :
    ("c.png" ∈ (ImageGroup.mk [("c.png", [[[0]]]), ("c.png", [[[0]]]),
          ("c.png", [[[0]]]), ("c.png", [[[0]]])]).filter_similar [[[0]]] 1
        ↔ ∃ im, ("c.png", im) ∈ (ImageGroup.mk [("c.png", [[[0]]]),
            ("c.png", [[[0]]]), ("c.png", [[[0]]]), ("c.png", [[[0]]])]).images
          ∧ meandiff [[[0]]] im < 1)
      ∧ ((ImageGroup.mk [("c.png", [[[0]]]), ("c.png", [[[0]]]),
            ("c.png", [[[0]]]), ("c.png", [[[0]]])]).filter_similar [[[0]]] 1).count
            "c.png"
          = ((ImageGroup.mk [("c.png", [[[0]]]), ("c.png", [[[0]]]),
              ("c.png", [[[0]]]), ("c.png", [[[0]]])]).images.filter
              (fun q => q.1 = "c.png" ∧ meandiff [[[0]]] q.2 < 1)).length :=
  claim_rotation_match_counts (fun p => if p = "c.png" then some [[[0]]] else none)
    (fun i _ => i) ["c.png"] 100 1
    (ImageGroup.mk [("c.png", [[[0]]]), ("c.png", [[[0]]]), ("c.png", [[[0]]]),
      ("c.png", [[[0]]])])
    [[[0]]] "c.png" rfl

end ImageSearch
